import Mathlib

/-!
Verification of the invoice-aggregation pipeline (fetch_invoices.py):
pagination, XML-record normalization, VAT filtering with date shifting,
aggregation into a date-indexed matrix, and the two report encodings.
The Python code is shallowly embedded: dictionaries become association
lists, floats become rationals, exceptions become Option, and the XML
document is the tree that xml.etree produces (an element has a tag, an
optional text, and children; an empty element has text None).
-/

namespace GD

/-- Python truthiness of an optional string: None and the empty string are
falsy, every other string is truthy. -/
def pyTruthy : Option String → Bool
  | none => false
  | some s => s ≠ ""

/-- Python str.strip(): surrounding whitespace removed from both ends. -/
def pyStrip (s : String) : String :=
  ⟨((s.data.dropWhile Char.isWhitespace).reverse.dropWhile Char.isWhitespace).reverse⟩

/-- Comparison of two characters by code point, the comparison Python uses
inside string comparison. -/
def cmpCh (a b : Char) : Ordering :=
  if a.toNat < b.toNat then .lt else if b.toNat < a.toNat then .gt else .eq

/-- Lexicographic comparison of two character lists. -/
def cmpL : List Char → List Char → Ordering
  | [], [] => .eq
  | [], _ :: _ => .lt
  | _ :: _, [] => .gt
  | a :: as, b :: bs =>
    match cmpCh a b with
    | .eq => cmpL as bs
    | o => o

/-- Python string comparison: lexicographic by code point. -/
def cmpStr (s t : String) : Ordering := cmpL s.data t.data

/-- Python s <= t on strings. -/
def strLe (s t : String) : Prop := cmpStr s t ≠ Ordering.gt

instance : DecidableRel strLe := fun s t =>
  inferInstanceAs (Decidable (cmpStr s t ≠ Ordering.gt))

/-- Python tuple comparison on (issuer_name, item_descr) pairs. -/
def cmpKey (a b : String × String) : Ordering :=
  match cmpStr a.1 b.1 with
  | .eq => cmpStr a.2 b.2
  | o => o

/-- Python a <= b on key pairs. -/
def keyLE (a b : String × String) : Prop := cmpKey a b ≠ Ordering.gt

instance : DecidableRel keyLE := fun a b =>
  inferInstanceAs (Decidable (cmpKey a b ≠ Ordering.gt))

/-- Numeric value of a list of decimal digit characters (most significant
first), as read by int() / strptime. -/
def natOfDigits (l : List Char) : Nat :=
  l.foldl (fun a c => a * 10 + (c.toNat - 48)) 0

/-- One decimal digit character. -/
def digitChar : Nat → Char
  | 0 => '0' | 1 => '1' | 2 => '2' | 3 => '3' | 4 => '4'
  | 5 => '5' | 6 => '6' | 7 => '7' | 8 => '8' | 9 => '9'
  | _ => '0'

/-- Decimal digit characters of a natural number, most significant first
(fuel-indexed; fuel n is always enough). -/
def natChars : Nat → Nat → List Char
  | 0, _ => []
  | f + 1, n => if n < 10 then [digitChar n] else natChars f (n / 10) ++ [digitChar (n % 10)]

/-- Decimal rendering of a natural number, as Python str does. -/
def natStr (n : Nat) : String := ⟨natChars (n + 1) n⟩

/-- Decimal rendering of an integer, as Python str does. -/
def intStr (i : Int) : String :=
  if i < 0 then "-" ++ natStr (-i).toNat else natStr i.toNat

/-- Python int() applied to a rational: truncation toward zero. -/
def pyInt (q : ℚ) : Int := if 0 ≤ q then q.floor else -((-q).floor)

/-! Calendar arithmetic (proleptic Gregorian, as Python datetime).
Days are counted from 0000-03-01 so that all intermediate values are
natural numbers; 0001-01-01 is day 306. -/

def isLeap (y : Nat) : Bool := (y % 4 == 0 && y % 100 != 0) || y % 400 == 0

/-- Length of a month. -/
def daysInMonth (y m : Nat) : Nat :=
  if m = 2 then (if isLeap y then 29 else 28)
  else if m = 4 ∨ m = 6 ∨ m = 9 ∨ m = 11 then 30
  else 31

/-- A calendar date as datetime holds it (year 1..9999 after validation). -/
structure Date where
  year : Nat
  month : Nat
  day : Nat
deriving DecidableEq, Repr

/-- Days since 0000-03-01 of a civil date (standard era/year-of-era
decomposition). -/
def daysFromCivil (y m d : Nat) : Nat :=
  let y' := if m ≤ 2 then y - 1 else y
  let era := y' / 400
  let yoe := y' % 400
  let mp := (m + 9) % 12
  let doy := (153 * mp + 2) / 5 + d - 1
  let doe := yoe * 365 + yoe / 4 - yoe / 100 + doy
  era * 146097 + doe

/-- Civil date with the given number of days since 0000-03-01 (inverse of
daysFromCivil). -/
def civilDate (z : Nat) : Date :=
  let era := z / 146097
  let doe := z % 146097
  let yoe := (doe - doe / 1460 + doe / 36524 - doe / 146096) / 365
  let y := yoe + era * 400
  let doy := doe - (365 * yoe + yoe / 4 - yoe / 100)
  let mp := (5 * doy + 2) / 153
  let d := doy - (153 * mp + 2) / 5 + 1
  let m := if mp < 10 then mp + 3 else mp - 9
  ⟨if m ≤ 2 then y + 1 else y, m, d⟩

/-- Day number of a Date. -/
def Date.toDays (dt : Date) : Nat := daysFromCivil dt.year dt.month dt.day

/-- Weekday with Monday = 0 .. Sunday = 6, as datetime.weekday(). -/
def Date.weekday (dt : Date) : Nat := (dt.toDays + 2) % 7

/-- Greatest representable day (9999-12-31), the datetime.max bound. -/
def maxDays : Nat := daysFromCivil 9999 12 31

/-- Adding a signed number of days, as date + timedelta(days=k); the result
is None when the sum leaves the supported range (Python raises
OverflowError there). -/
def addDays (dt : Date) (k : Int) : Option Date :=
  let z : Int := (dt.toDays : Int) + k
  if z < 306 ∨ (maxDays : Int) < z then none
  else some (civilDate z.toNat)

/-- Longest leading run of decimal digits of a character list, paired with
the rest. -/
def takeDigits (l : List Char) : List Char × List Char :=
  match l with
  | [] => ([], [])
  | c :: t =>
    if c.isDigit then
      let r := takeDigits t
      (c :: r.1, r.2)
    else ([], c :: t)

/-- Parse of a YYYY-MM-DD date string as strptime with format %Y-%m-%d:
exactly four digits of year, one or two digits of month and day, the
whole string consumed, and the field values validated (year 1..9999,
month 1..12, day within the month). None models the ValueError raise. -/
def parseDate (s : String) : Option Date :=
  match takeDigits s.data with
  | (ys, '-' :: r1) =>
    (match takeDigits r1 with
     | (ms, '-' :: r2) =>
       if (takeDigits r2).2 = [] ∧ ys.length = 4 ∧
          (ms.length = 1 ∨ ms.length = 2) ∧
          ((takeDigits r2).1.length = 1 ∨ (takeDigits r2).1.length = 2) then
         if 1 ≤ natOfDigits ys ∧ 1 ≤ natOfDigits ms ∧ natOfDigits ms ≤ 12 ∧
            1 ≤ natOfDigits (takeDigits r2).1 ∧
            natOfDigits (takeDigits r2).1 ≤ daysInMonth (natOfDigits ys) (natOfDigits ms) then
           some ⟨natOfDigits ys, natOfDigits ms, natOfDigits (takeDigits r2).1⟩
         else none
       else none
     | _ => none)
  | _ => none

/-- Zero-pad a decimal rendering to the given width. -/
def padNat (w n : Nat) : String :=
  ⟨List.replicate (w - (natStr n).length) '0'⟩ ++ natStr n

/-- Render a Date as strftime %Y-%m-%d does. -/
def formatDate (dt : Date) : String :=
  padNat 4 dt.year ++ "-" ++ padNat 2 dt.month ++ "-" ++ padNat 2 dt.day

/-- The fixed weekday table of get_greek_day_name, Monday first. -/
def greekDays : List String :=
  ["Δευτέρα", "Τρίτη", "Τετάρτη", "Πέμπτη", "Παρασκευή", "Σάββατο", "Κυριακή"]

/-- Greek weekday name of a date string, as get_greek_day_name; None models
the strptime ValueError on a malformed date. -/
def get_greek_day_name (s : String) : Option String :=
  (parseDate s).map (fun dt => greekDays.getD dt.weekday "")

/-! Python float() on a string, restricted to finite decimal notation:
surrounding whitespace stripped, optional sign, digits around an optional
point (at least one digit overall), optional exponent. None models the
ValueError raise. -/

/-- Value of integer digits, fraction digits and a signed exponent. -/
def decValue (ip fp : List Char) (ex : Int) : ℚ :=
  ((natOfDigits ip : ℚ) + (natOfDigits fp : ℚ) / (10 : ℚ) ^ fp.length) * (10 : ℚ) ^ ex

/-- Exponent part of a float literal ('e' already consumed). -/
def pyFloatExp (l : List Char) : Option Int :=
  match l with
  | '+' :: r => let p := takeDigits r
                if p.1 ≠ [] ∧ p.2 = [] then some (natOfDigits p.1 : Int) else none
  | '-' :: r => let p := takeDigits r
                if p.1 ≠ [] ∧ p.2 = [] then some (-(natOfDigits p.1 : Int)) else none
  | _ => let p := takeDigits l
         if p.1 ≠ [] ∧ p.2 = [] then some (natOfDigits p.1 : Int) else none

/-- Unsigned part of a float literal: digits, optional point, optional
exponent. -/
def pyFloatMag (l : List Char) : Option ℚ :=
  let p := takeDigits l
  match p.2 with
  | [] => if p.1 ≠ [] then some (decValue p.1 [] 0) else none
  | '.' :: r =>
    let q := takeDigits r
    if p.1 = [] ∧ q.1 = [] then none
    else
      (match q.2 with
       | [] => some (decValue p.1 q.1 0)
       | 'e' :: r2 => (pyFloatExp r2).map (decValue p.1 q.1)
       | 'E' :: r2 => (pyFloatExp r2).map (decValue p.1 q.1)
       | _ => none)
  | 'e' :: r2 => if p.1 ≠ [] then (pyFloatExp r2).map (decValue p.1 []) else none
  | 'E' :: r2 => if p.1 ≠ [] then (pyFloatExp r2).map (decValue p.1 []) else none
  | _ => none

/-- Python float() of a string (finite decimals). -/
def pyFloat (s : String) : Option ℚ :=
  match (pyStrip s).data with
  | '+' :: r => pyFloatMag r
  | '-' :: r => (pyFloatMag r).map Neg.neg
  | l => pyFloatMag l

/-! Association lists standing for Python dicts (insertion-ordered, later
assignment to an existing key updates in place). -/

/-- Value stored under a key. -/
def alFind {α β : Type} [DecidableEq α] (m : List (α × β)) (k : α) : Option β :=
  (m.find? (fun p => p.1 = k)).map Prod.snd

/-- Value stored under a key, with a default (dict.get / defaultdict read). -/
def alGet {α β : Type} [DecidableEq α] (m : List (α × β)) (k : α) (d : β) : β :=
  (alFind m k).getD d

/-- Update the value under a key in place through f, starting from dflt when
the key is new (the new key goes to the end, as dict insertion). -/
def alUpd {α β : Type} [DecidableEq α] (m : List (α × β)) (k : α) (dflt : β) (f : β → β) :
    List (α × β) :=
  match m with
  | [] => [(k, f dflt)]
  | p :: t => if p.1 = k then (p.1, f p.2) :: t else p :: alUpd t k dflt f

/-! The record produced by the normalizer. The Python code adds the
date_adjustment key later; here it is a field that parse_invoices leaves
at 0, matching the record.get default used by the aggregator. -/

/-- One invoice line record. -/
structure Record where
  issuer_name : String
  issuer_vat : String
  item_descr : String
  issue_date : String
  quantity : ℚ
  date_adjustment : Int := 0
deriving DecidableEq, Repr

/-! The XML document as xml.etree holds it. Tags are written without the
namespace prefix, which is uniform in the source. An element parsed from
markup with no character data has text none. -/

/-- An XML element. -/
inductive Xml where
  | elem (tag : String) (text : Option String) (children : List Xml)

/-- Tag of an element. -/
def Xml.tag : Xml → String
  | .elem t _ _ => t

/-- Text of an element. -/
def Xml.text : Xml → Option String
  | .elem _ s _ => s

/-- Children of an element. -/
def Xml.children : Xml → List Xml
  | .elem _ _ c => c

/-- Element.find: first direct child with the tag. -/
def findE (x : Xml) (t : String) : Option Xml :=
  x.children.find? (fun c => c.tag = t)

/-- Element.findall: all direct children with the tag, in order. -/
def findAllE (x : Xml) (t : String) : List Xml :=
  x.children.filter (fun c => c.tag = t)

/-- One invoiceDetails line of an invoice, given the already-extracted
issuer name, issuer vat and issue date: none when the line lacks an
itemDescr or quantity element, when either text is missing or empty, or
when the quantity does not parse as a number. -/
def detailRecord (issuer_name issuer_vat issue_date : String) (detail : Xml) : Option Record :=
  match findE detail "itemDescr", findE detail "quantity" with
  | some ide, some qe =>
    (match ide.text, qe.text with
     | some it, some qt =>
       if it = "" ∨ qt = "" then none
       else
         (match pyFloat qt with
          | none => none
          | some q => some ⟨issuer_name, issuer_vat, pyStrip it, issue_date, q, 0⟩)
     | _, _ => none)
  | _, _ => none

/-- The issuer identifier of an invoice: the stripped vatNumber text when
the element is present with truthy text, the empty string otherwise. -/
def vatOf (issuer : Xml) : String :=
  match findE issuer "vatNumber" with
  | some e =>
    (match e.text with
     | some t => if t = "" then "" else pyStrip t
     | none => "")
  | none => ""

/-- Records contributed by one invoice element: none at all when the
issuer, its name, the invoiceHeader or its issueDate is missing or has
falsy text; otherwise one record per well-formed invoiceDetails child. -/
def invoiceRecords (inv : Xml) : List Record :=
  match findE inv "issuer" with
  | none => []
  | some issuer =>
    let issuer_vat := vatOf issuer
    match findE issuer "name" with
    | none => []
    | some ne =>
      match ne.text with
      | none => []
      | some nt =>
        if nt = "" then []
        else
          let issuer_name := pyStrip nt
          match findE inv "invoiceHeader" with
          | none => []
          | some hdr =>
            match findE hdr "issueDate" with
            | none => []
            | some de =>
              match de.text with
              | none => []
              | some dt0 =>
                if dt0 = "" then []
                else
                  (findAllE inv "invoiceDetails").filterMap
                    (detailRecord issuer_name issuer_vat (pyStrip dt0))

/-- parse_invoices. The argument is the outcome of ET.fromstring: none for
an empty input string or a ParseError (both recovered as an empty page).
Returns the records and the two continuation-token components. -/
def parse_invoices (doc : Option Xml) : List Record × Option String × Option String :=
  match doc with
  | none => ([], none, none)
  | some root =>
    let npk := ((findE root "continuationToken").bind (fun ct => findE ct "nextPartitionKey")).bind
      Xml.text
    let nrk := ((findE root "continuationToken").bind (fun ct => findE ct "nextRowKey")).bind
      Xml.text
    match findE root "invoicesDoc" with
    | none => ([], npk, nrk)
    | some idoc =>
      (((findAllE idoc "invoice").map invoiceRecords).foldr (· ++ ·) [], npk, nrk)

/-! The pagination loop of fetch_all_invoices_for_period. The transport
(fetch_invoices) returns the raw body, or the empty string on any request
failure; here a call outcome is fail (empty body) or a page holding the
document that the body parses to. The server is a function of the call
number and of the cursor sent with that call, so arbitrary response
sequences are covered. The while-True loop is given fuel; the Python loop
diverges exactly where the fuel runs out for every amount of fuel. -/

/-- Outcome of one transport call. -/
inductive Resp where
  | fail
  | page (x : Xml)

/-- A transport: call number and cursor sent, to outcome. -/
def Server : Type := Nat → Option String × Option String → Resp

/-- Records a call outcome contributes. -/
def pageRecords (r : Resp) : List Record :=
  match r with
  | .fail => []
  | .page x => (parse_invoices (some x)).1

/-- Cursor components a call outcome carries. -/
def pageCursor (r : Resp) : Option String × Option String :=
  match r with
  | .fail => (none, none)
  | .page x => ((parse_invoices (some x)).2.1, (parse_invoices (some x)).2.2)

/-- The loop continues after this outcome: the call succeeded and both
cursor components are truthy. -/
def contin (r : Resp) : Bool :=
  match r with
  | .fail => false
  | .page x => pyTruthy (parse_invoices (some x)).2.1 && pyTruthy (parse_invoices (some x)).2.2

/-- The fetch loop from a given cursor: fetch, stop on a failed call,
accumulate the page records, stop unless both cursor components are
truthy, else continue with the returned cursor. -/
def fetchLoop (fuel : Nat) (server : Server) (cur : Option String × Option String) :
    Option (List Record) :=
  match fuel with
  | 0 => none
  | f + 1 =>
    match server 0 cur with
    | .fail => some []
    | .page x =>
      let out := parse_invoices (some x)
      if pyTruthy out.2.1 && pyTruthy out.2.2 then
        (fetchLoop f (fun j => server (j + 1)) (out.2.1, out.2.2)).map (out.1 ++ ·)
      else some out.1

/-- fetch_all_invoices_for_period: run the loop starting from the empty
cursor. -/
def fetch_all_invoices_for_period (fuel : Nat) (server : Server) : Option (List Record) :=
  fetchLoop fuel server (none, none)

/-- Cursor sent with each call when the loop starts from cur. -/
def curSeqFrom (server : Server) (cur : Option String × Option String) : Nat →
    Option String × Option String
  | 0 => cur
  | k + 1 => pageCursor (server k (curSeqFrom server cur k))

/-- Outcome of each call when the loop starts from cur. -/
def respFrom (server : Server) (cur : Option String × Option String) (k : Nat) : Resp :=
  server k (curSeqFrom server cur k)

/-- Outcome of each call of the actual run (empty starting cursor). -/
def respAt (server : Server) (k : Nat) : Resp :=
  respFrom server (none, none) k

/-! filter_by_vat_numbers and the no-filter branch of main. -/

/-- The record with its date adjustment set. -/
def setAdj (r : Record) (a : Int) : Record :=
  { r with date_adjustment := a }

/-- The vat_map dict comprehension: keys trimmed, a later duplicate key
overwrites an earlier one. -/
def vatMap (vat_data : List (String × Int)) : List (String × Int) :=
  vat_data.foldl (fun m p => alUpd m (pyStrip p.1) 0 (fun _ => p.2)) []

/-- filter_by_vat_numbers: keep exactly the records whose stored issuer_vat
is a key of the map, each with the mapped adjustment attached. -/
def filter_by_vat_numbers (records : List Record) (vat_data : List (String × Int)) :
    List Record :=
  records.filterMap (fun r =>
    match alFind (vatMap vat_data) r.issuer_vat with
    | some a => some (setAdj r a)
    | none => none)

/-- The else-branch of main when no vat file is given: every record passes
through with date_adjustment set to 0. -/
def pass_all_with_zero (records : List Record) : List Record :=
  records.map (fun r => setAdj r 0)

/-! aggregate_data. The nested defaultdicts become nested association
lists; the effective-date computation parses and shifts the issue date
only when the adjustment is non-zero, and any of the raises that
datetime can produce there (ValueError from strptime, OverflowError from
the timedelta addition) makes the whole aggregation None. -/

/-- Aggregation key of a record. -/
def recKey (r : Record) : String × String := (r.issuer_name, r.item_descr)

/-- Effective date string of a record: the issue date shifted by the
adjustment when the adjustment is non-zero (None on a strptime or
range failure), the issue date string verbatim when it is zero. -/
def effD (r : Record) : Option String :=
  if r.date_adjustment ≠ 0 then
    match parseDate r.issue_date with
    | none => none
    | some dt => (addDays dt r.date_adjustment).map formatDate
  else some r.issue_date

/-- The nested dict of aggregate_data. -/
abbrev AggDict : Type := List ((String × String) × List (String × ℚ))

/-- One defaultdict update: aggregated[key][date] += q. -/
def aggStep (agg : AggDict) (k : String × String) (d : String) (q : ℚ) : AggDict :=
  alUpd agg k [] (fun inner => alUpd inner d 0 (· + q))

/-- The record loop of aggregate_data, carrying the dict and the list of
dates seen (the set is kept as a list; duplicates are removed before
sorting). -/
def aggLoop : List Record → AggDict → List String → Option (AggDict × List String)
  | [], agg, ds => some (agg, ds)
  | r :: rs, agg, ds =>
    match effD r with
    | none => none
    | some d => aggLoop rs (aggStep agg (recKey r) d r.quantity) (ds ++ [d])

/-- aggregate_data: the aggregated matrix and the ascending sorted list of
the distinct effective dates. -/
def aggregate_data (records : List Record) : Option (AggDict × List String) :=
  (aggLoop records [] []).map (fun p => (p.1, List.insertionSort strLe p.2.dedup))

/-- A cell of the aggregated matrix, read with the defaultdict default 0. -/
def cellOf (agg : AggDict) (k : String × String) (d : String) : ℚ :=
  alGet (alGet agg k []) d 0

/-- Total quantity of the records with the given key and effective date:
the value the matrix cell must accumulate to. -/
def sumQ (k : String × String) (d : String) : List Record → ℚ
  | [] => 0
  | r :: rs => (if recKey r = k ∧ effD r = some d then r.quantity else 0) + sumQ k d rs

/-! The two renderers. Styling (bold, column widths) is outside the model;
the spreadsheet is its grid of written cells and the text file its list
of lines. -/

/-- Order of sorted(aggregated_data.items()): by the key pair (values are
never compared since dict keys are unique). -/
def itemLE (x y : (String × String) × List (String × ℚ)) : Prop := keyLE x.1 y.1

instance : DecidableRel itemLE := fun x y => inferInstanceAs (Decidable (keyLE x.1 y.1))

/-- sorted(aggregated_data.items()). -/
def sortedItems (agg : AggDict) : AggDict :=
  List.insertionSort itemLE agg

/-- The join of fields with the semicolon separator. -/
def semiJoin : List String → String
  | [] => ""
  | [x] => x
  | x :: xs => x ++ ";" ++ semiJoin xs

/-- Evaluation of a function over a list inside Option, failing as soon as
the function fails (the order in which the Python loops hit a raise). -/
def mapOpt {α β : Type} (f : α → Option β) : List α → Option (List β)
  | [] => some []
  | a :: l =>
    match f a, mapOpt f l with
    | some b, some bs => some (b :: bs)
    | _, _ => none

/-- One date cell of a text data row: the truncated quantity when strictly
positive, the empty string otherwise. -/
def csvCell (inner : List (String × ℚ)) (d : String) : String :=
  let q := alGet inner d 0
  if 0 < q then intStr (pyInt q) else ""

/-- The data lines of generate_csv, in sorted key order. -/
def csvDataLines (agg : AggDict) (dates : List String) : List String :=
  (sortedItems agg).map (fun it =>
    semiJoin (it.1.1 :: it.1.2 :: dates.map (csvCell it.2)))

/-- generate_csv: the lines of the text file; None when a weekday lookup
raises on a date of the axis. -/
def generate_csv (agg : AggDict) (dates : List String) : Option (List String) :=
  (mapOpt get_greek_day_name dates).map (fun names =>
    (";;" ++ semiJoin dates) :: (";;" ++ semiJoin names) :: csvDataLines agg dates)

/-- A spreadsheet cell: never written, a string, or a number. -/
inductive XCell where
  | blank
  | str (s : String)
  | num (q : ℚ)
deriving DecidableEq, Repr

/-- One date cell of a spreadsheet data row: the numeric quantity when
strictly positive, otherwise the cell is not written. -/
def xlCell (inner : List (String × ℚ)) (d : String) : XCell :=
  let q := alGet inner d 0
  if 0 < q then XCell.num q else XCell.blank

/-- generate_excel: the grid of the sheet; None when a weekday lookup
raises on a date of the axis. -/
def generate_excel (agg : AggDict) (dates : List String) : Option (List (List XCell)) :=
  (mapOpt get_greek_day_name dates).map (fun names =>
    (XCell.str "Issuer" :: XCell.str "Item Description" :: dates.map XCell.str)
    :: (XCell.blank :: XCell.blank :: names.map XCell.str)
    :: (sortedItems agg).map (fun it =>
         XCell.str it.1.1 :: XCell.str it.1.2 :: dates.map (xlCell it.2)))

/-- Count of a character in a string. -/
def countCh (c : Char) (s : String) : Nat := s.data.count c

/-! Concrete fixtures used by the witnesses below. -/

/-- A concrete invoice with one well-formed line. -/
def invW : Xml :=
  .elem "invoice" none [
    .elem "issuer" none [.elem "vatNumber" (some "094") [], .elem "name" (some "ACME") []],
    .elem "invoiceHeader" none [.elem "issueDate" (some "2024-01-05") []],
    .elem "invoiceDetails" none [
      .elem "itemDescr" (some "Widget") [], .elem "quantity" (some "2") []]]

/-- A concrete page with a fully populated cursor and one invoice line. -/
def pageW : Xml :=
  .elem "RequestedDoc" none [
    .elem "continuationToken" none [
      .elem "nextPartitionKey" (some "p1") [], .elem "nextRowKey" (some "r1") []],
    .elem "invoicesDoc" none [invW]]

/-- A concrete final page: the nextPartitionKey element is present but its
text is empty (as xml.etree reads an empty element). -/
def pageEndW : Xml :=
  .elem "RequestedDoc" none [
    .elem "continuationToken" none [
      .elem "nextPartitionKey" none [], .elem "nextRowKey" (some "r2") []],
    .elem "invoicesDoc" none [invW]]

/-- A witness transport: one full page, then a failing call. -/
def serverW : Server := fun k _ => if k = 0 then Resp.page pageW else Resp.fail

/-- A witness transport that always serves the final page. -/
def serverEndW : Server := fun _ _ => Resp.page pageEndW

/-- An invoice whose issuer has no name element. -/
def invNoNameW : Xml :=
  .elem "invoice" none [
    .elem "issuer" none [.elem "vatNumber" (some "094") []],
    .elem "invoiceHeader" none [.elem "issueDate" (some "2024-01-05") []],
    .elem "invoiceDetails" none [
      .elem "itemDescr" (some "Widget") [], .elem "quantity" (some "2") []]]

/-- An invoice whose issuer has no vatNumber element. -/
def invNoVatW : Xml :=
  .elem "invoice" none [
    .elem "issuer" none [.elem "name" (some "ACME") []],
    .elem "invoiceHeader" none [.elem "issueDate" (some "2024-01-05") []],
    .elem "invoiceDetails" none [
      .elem "itemDescr" (some "Widget") [], .elem "quantity" (some "3") []]]

/-- An invoice line whose quantity does not parse as a number. -/
def badDetailW : Xml :=
  .elem "invoiceDetails" none [
    .elem "itemDescr" (some "Gadget") [], .elem "quantity" (some "abc") []]

/-- A well-formed invoice line. -/
def goodDetailW : Xml :=
  .elem "invoiceDetails" none [
    .elem "itemDescr" (some "Bolt") [], .elem "quantity" (some "4") []]

/-- A concrete aggregated matrix for the renderer witnesses: one cell with
the fractional quantity 11/2, one integer cell, one explicit zero cell. -/
def aggW : AggDict :=
  [(("ACME", "Widget"), [("2024-01-05", Rat.mk' 11 2), ("2024-01-06", 0)]),
   (("ACME", "Gadget"), [("2024-01-05", 5)])]

/-- The date axis of the renderer witnesses. -/
def datesW : List String := ["2024-01-05", "2024-01-06"]

/-- The text encoding of aggW over datesW. -/
def csvW : List String :=
  [";;2024-01-05;2024-01-06", ";;Παρασκευή;Σάββατο", "ACME;Gadget;5;", "ACME;Widget;5;"]

/-- The spreadsheet grid of aggW over datesW. -/
def gridOutW : List (List XCell) :=
  [[XCell.str "Issuer", XCell.str "Item Description",
    XCell.str "2024-01-05", XCell.str "2024-01-06"],
   [XCell.blank, XCell.blank, XCell.str "Παρασκευή", XCell.str "Σάββατο"],
   [XCell.str "ACME", XCell.str "Gadget", XCell.num 5, XCell.blank],
   [XCell.str "ACME", XCell.str "Widget", XCell.num (Rat.mk' 11 2), XCell.blank]]

/-! Properties of the code-point comparison: the facts that make the two
sort relations lawful for sorting. -/

theorem cmpCh_lt_iff (a b : Char) : cmpCh a b = Ordering.lt ↔ a.toNat < b.toNat := by
  by_cases h : a.toNat < b.toNat
  · simp [cmpCh, h]
  · by_cases h2 : b.toNat < a.toNat <;> simp [cmpCh, h, h2]

theorem cmpCh_gt_iff (a b : Char) : cmpCh a b = Ordering.gt ↔ b.toNat < a.toNat := by
  by_cases h : a.toNat < b.toNat
  · simp [cmpCh, h]; omega
  · by_cases h2 : b.toNat < a.toNat <;> simp [cmpCh, h, h2]

theorem cmpCh_eq_iff (a b : Char) : cmpCh a b = Ordering.eq ↔ a.toNat = b.toNat := by
  by_cases h : a.toNat < b.toNat
  · simp [cmpCh, h]; omega
  · by_cases h2 : b.toNat < a.toNat <;> simp [cmpCh, h, h2] <;> omega

theorem cmpCh_swap (a b : Char) : cmpCh b a = (cmpCh a b).swap := by
  by_cases h : a.toNat < b.toNat
  · simp [cmpCh, h, Ordering.swap, Nat.lt_asymm h]
  · by_cases h2 : b.toNat < a.toNat <;> simp [cmpCh, h, h2, Ordering.swap]

theorem cmpL_swap (a : List Char) : ∀ b, cmpL b a = (cmpL a b).swap := by
  induction a with
  | nil => intro b; cases b <;> rfl
  | cons x xs ih =>
    intro b
    cases b with
    | nil => rfl
    | cons y ys =>
      show (match cmpCh y x with | .eq => cmpL ys xs | o => o) = _
      rw [cmpCh_swap x y]
      rcases hxy : cmpCh x y <;> simp [cmpL, hxy, Ordering.swap, ih ys]

theorem cmpL_nil_ne_gt (c : List Char) : cmpL [] c ≠ Ordering.gt := by
  cases c <;> simp [cmpL]

theorem cmpL_eq_congr (a : List Char) :
    ∀ b c, cmpL a b = Ordering.eq → cmpL a c = cmpL b c := by
  induction a with
  | nil =>
    intro b c h
    cases b with
    | nil => rfl
    | cons y ys => simp [cmpL] at h
  | cons x xs ih =>
    intro b c h
    cases b with
    | nil => simp [cmpL] at h
    | cons y ys =>
      have hx : cmpCh x y = Ordering.eq := by
        rcases hxy : cmpCh x y <;> simp [cmpL, hxy] at h <;> rfl
      have hxs : cmpL xs ys = Ordering.eq := by
        simpa [cmpL, hx] using h
      have hchar : x.toNat = y.toNat := (cmpCh_eq_iff x y).1 hx
      cases c with
      | nil => rfl
      | cons z zs =>
        have hcz : cmpCh x z = cmpCh y z := by
          simp [cmpCh, hchar]
        simp only [cmpL, hcz]
        rcases hyz : cmpCh y z <;> simp [ih ys zs hxs]

theorem cmpL_le_trans (a : List Char) :
    ∀ b c, cmpL a b ≠ Ordering.gt → cmpL b c ≠ Ordering.gt → cmpL a c ≠ Ordering.gt := by
  induction a with
  | nil => intro b c _ _; exact cmpL_nil_ne_gt c
  | cons x xs ih =>
    intro b c h1 h2
    cases b with
    | nil => simp [cmpL] at h1
    | cons y ys =>
      cases c with
      | nil => simp [cmpL] at h2
      | cons z zs =>
        rcases hxy : cmpCh x y with _ | _ | _
        · -- x < y
          have hx : x.toNat < y.toNat := (cmpCh_lt_iff x y).1 hxy
          rcases hyz : cmpCh y z with _ | _ | _
          · have : x.toNat < z.toNat := lt_trans hx ((cmpCh_lt_iff y z).1 hyz)
            simp [cmpL, (cmpCh_lt_iff x z).2 this]
          · have : x.toNat < z.toNat := by
              have := (cmpCh_eq_iff y z).1 hyz; omega
            simp [cmpL, (cmpCh_lt_iff x z).2 this]
          · exact absurd (by simp [cmpL, hyz]) h2
        · -- x = y at the first character
          have hx : x.toNat = y.toNat := (cmpCh_eq_iff x y).1 hxy
          have h1t : cmpL xs ys ≠ Ordering.gt := by
            intro hc; exact h1 (by simp [cmpL, hxy, hc])
          rcases hyz : cmpCh y z with _ | _ | _
          · have : x.toNat < z.toNat := by
              have := (cmpCh_lt_iff y z).1 hyz; omega
            simp [cmpL, (cmpCh_lt_iff x z).2 this]
          · have h2t : cmpL ys zs ≠ Ordering.gt := by
              intro hc; exact h2 (by simp [cmpL, hyz, hc])
            have hz : x.toNat = z.toNat := by
              have := (cmpCh_eq_iff y z).1 hyz; omega
            have : cmpCh x z = Ordering.eq := (cmpCh_eq_iff x z).2 hz
            simp only [cmpL, this]
            exact ih ys zs h1t h2t
          · exact absurd (by simp [cmpL, hyz]) h2
        · exact absurd (by simp [cmpL, hxy]) h1

instance : IsTotal String strLe :=
  ⟨fun a b => by
    by_cases h : cmpStr a b = Ordering.gt
    · right
      show cmpL b.data a.data ≠ Ordering.gt
      rw [cmpL_swap a.data b.data]
      rw [show cmpL a.data b.data = Ordering.gt from h]
      simp [Ordering.swap]
    · left; exact h⟩

instance : IsTrans String strLe :=
  ⟨fun a b c h1 h2 => cmpL_le_trans a.data b.data c.data h1 h2⟩

theorem cmpKey_swap (a b : String × String) : cmpKey b a = (cmpKey a b).swap := by
  unfold cmpKey cmpStr
  rw [cmpL_swap a.1.data b.1.data, cmpL_swap a.2.data b.2.data]
  rcases cmpL a.1.data b.1.data <;> simp [Ordering.swap]

instance : IsTotal (String × String) keyLE :=
  ⟨fun a b => by
    by_cases h : cmpKey a b = Ordering.gt
    · right
      show cmpKey b a ≠ Ordering.gt
      rw [cmpKey_swap, h]
      simp [Ordering.swap]
    · left; exact h⟩

theorem cmpStr_swap (a b : String) : cmpStr b a = (cmpStr a b).swap :=
  cmpL_swap a.data b.data

theorem cmpStr_eq_congr_l (a b c : String) (h : cmpStr a b = Ordering.eq) :
    cmpStr a c = cmpStr b c :=
  cmpL_eq_congr a.data b.data c.data h

theorem cmpStr_eq_congr_r (a b c : String) (h : cmpStr b c = Ordering.eq) :
    cmpStr a b = cmpStr a c := by
  have hba : cmpStr b a = cmpStr c a := cmpStr_eq_congr_l b c a h
  rw [cmpStr_swap a b, cmpStr_swap a c] at hba
  rcases hab : cmpStr a b <;> rcases hac : cmpStr a c <;>
    rw [hab, hac] at hba <;> simp [Ordering.swap] at hba <;> rfl

theorem cmpStr_lt_trans {a b c : String} (h1 : cmpStr a b = Ordering.lt)
    (h2 : cmpStr b c = Ordering.lt) : cmpStr a c = Ordering.lt := by
  have hle : cmpStr a c ≠ Ordering.gt :=
    cmpL_le_trans a.data b.data c.data (by rw [show cmpL a.data b.data = _ from h1]; simp)
      (by rw [show cmpL b.data c.data = _ from h2]; simp)
  rcases hac : cmpStr a c with _ | _ | _
  · rfl
  · exfalso
    have : cmpStr a b = cmpStr c b := cmpStr_eq_congr_l a c b hac
    rw [h1, cmpStr_swap b c, h2] at this
    simp [Ordering.swap] at this
  · exact absurd hac hle

instance : IsTrans (String × String) keyLE :=
  ⟨fun a b c h1 h2 => by
    have h1 : cmpKey a b ≠ Ordering.gt := h1
    have h2 : cmpKey b c ≠ Ordering.gt := h2
    show cmpKey a c ≠ Ordering.gt
    rcases hab : cmpStr a.1 b.1 with _ | _ | _
    · rcases hbc : cmpStr b.1 c.1 with _ | _ | _
      · have hac := cmpStr_lt_trans hab hbc
        simp [cmpKey, hac]
      · have hac : cmpStr a.1 c.1 = Ordering.lt := by
          rw [← cmpStr_eq_congr_r a.1 b.1 c.1 hbc]; exact hab
        simp [cmpKey, hac]
      · simp [cmpKey, hbc] at h2
    · rcases hbc : cmpStr b.1 c.1 with _ | _ | _
      · have hac : cmpStr a.1 c.1 = Ordering.lt := by
          rw [cmpStr_eq_congr_l a.1 b.1 c.1 hab]; exact hbc
        simp [cmpKey, hac]
      · have hac : cmpStr a.1 c.1 = Ordering.eq := by
          rw [cmpStr_eq_congr_l a.1 b.1 c.1 hab]; exact hbc
        have h1s : cmpStr a.2 b.2 ≠ Ordering.gt := by simpa [cmpKey, hab] using h1
        have h2s : cmpStr b.2 c.2 ≠ Ordering.gt := by simpa [cmpKey, hbc] using h2
        have := cmpL_le_trans a.2.data b.2.data c.2.data h1s h2s
        simpa [cmpKey, hac] using this
      · simp [cmpKey, hbc] at h2
    · simp [cmpKey, hab] at h1⟩

instance : IsTotal ((String × String) × List (String × ℚ)) itemLE :=
  ⟨fun a b => IsTotal.total (r := keyLE) a.1 b.1⟩

instance : IsTrans ((String × String) × List (String × ℚ)) itemLE :=
  ⟨fun a b c h1 h2 => IsTrans.trans (r := keyLE) a.1 b.1 c.1 h1 h2⟩

/-! Dictionary update laws and the cell invariant of the aggregation
loop. -/

theorem alFind_cons {α β : Type} [DecidableEq α] (p : α × β) (t : List (α × β)) (k2 : α) :
    alFind (p :: t) k2 = if p.1 = k2 then some p.2 else alFind t k2 := by
  by_cases h : p.1 = k2
  · rw [alFind, List.find?_cons_of_pos _ (by simp [h]), if_pos h]; rfl
  · rw [alFind, List.find?_cons_of_neg _ (by simp [h]), if_neg h]; rfl

theorem alUpd_cons {α β : Type} [DecidableEq α] (p : α × β) (t : List (α × β)) (k : α)
    (dflt : β) (f : β → β) :
    alUpd (p :: t) k dflt f = if p.1 = k then (p.1, f p.2) :: t else p :: alUpd t k dflt f := rfl

theorem alFind_alUpd {α β : Type} [DecidableEq α] (m : List (α × β)) (k k2 : α) (dflt : β)
    (f : β → β) :
    alFind (alUpd m k dflt f) k2 = if k2 = k then some (f (alGet m k dflt)) else alFind m k2 := by
  induction m with
  | nil =>
    show alFind [(k, f dflt)] k2 = _
    rw [alFind_cons]
    by_cases h : k2 = k
    · rw [if_pos h.symm, if_pos h]; rfl
    · rw [if_neg (fun hc => h hc.symm), if_neg h]
  | cons p t ih =>
    rw [alUpd_cons]
    by_cases hp : p.1 = k
    · rw [if_pos hp, alFind_cons]
      by_cases h2 : k2 = k
      · rw [if_pos (hp.trans h2.symm), if_pos h2]
        have : alGet (p :: t) k dflt = p.2 := by
          rw [alGet, alFind_cons, if_pos hp]; rfl
        rw [this]
      · rw [if_neg (fun hc => h2 ((hc.symm.trans hp))), if_neg h2, alFind_cons,
          if_neg (fun hc => h2 (hc.symm.trans hp))]
    · rw [if_neg hp, alFind_cons]
      by_cases hq : p.1 = k2
      · have h2 : ¬ k2 = k := fun hc => hp (hq.trans hc)
        rw [if_pos hq, if_neg h2, alFind_cons, if_pos hq]
      · rw [if_neg hq, ih]
        by_cases h2 : k2 = k
        · rw [if_pos h2, if_pos h2]
          have : alGet (p :: t) k dflt = alGet t k dflt := by
            rw [alGet, alFind_cons, if_neg hp]; rfl
          rw [this]
        · rw [if_neg h2, if_neg h2, alFind_cons, if_neg hq]

theorem alGet_alUpd {α β : Type} [DecidableEq α] (m : List (α × β)) (k k2 : α) (dflt : β)
    (f : β → β) :
    alGet (alUpd m k dflt f) k2 dflt = if k2 = k then f (alGet m k dflt) else alGet m k2 dflt := by
  unfold alGet
  rw [alFind_alUpd]
  by_cases h : k2 = k
  · rw [if_pos h, if_pos h]; rfl
  · rw [if_neg h, if_neg h]

theorem cellOf_aggStep (agg : AggDict) (k : String × String) (d : String) (q : ℚ)
    (k2 : String × String) (d2 : String) :
    cellOf (aggStep agg k d q) k2 d2 =
      cellOf agg k2 d2 + (if k2 = k ∧ d2 = d then q else 0) := by
  unfold cellOf aggStep
  rw [alGet_alUpd]
  by_cases hk : k2 = k
  · rw [if_pos hk, alGet_alUpd]
    by_cases hd : d2 = d
    · simp [hk, hd]
    · simp [hk, hd]
  · simp [hk]

theorem aggLoop_cell (rs : List Record) :
    ∀ (agg : AggDict) (ds : List String) (agg2 : AggDict) (ds2 : List String),
      aggLoop rs agg ds = some (agg2, ds2) →
      ∀ k d, cellOf agg2 k d = cellOf agg k d + sumQ k d rs := by
  induction rs with
  | nil =>
    intro agg ds agg2 ds2 h k d
    simp [aggLoop] at h
    simp [h.1.symm, sumQ]
  | cons r rs ih =>
    intro agg ds agg2 ds2 h k d
    simp only [aggLoop] at h
    rcases he : effD r with _ | e
    · rw [he] at h; exact absurd h (by simp)
    · rw [he] at h
      have hstep := ih (aggStep agg (recKey r) e r.quantity) (ds ++ [e]) agg2 ds2 h k d
      have hcons : sumQ k d (r :: rs) =
          (if recKey r = k ∧ effD r = some d then r.quantity else 0) + sumQ k d rs := rfl
      rw [hstep, cellOf_aggStep, hcons]
      by_cases hit : recKey r = k ∧ effD r = some d
      · have hed : e = d := by
          have h2 := hit.2; rw [he] at h2; exact Option.some.inj h2
        rw [if_pos hit, if_pos ⟨hit.1.symm, hed.symm⟩]
        ring
      · have hne : ¬ (k = recKey r ∧ d = e) := by
          intro hc
          exact hit ⟨hc.1.symm, by rw [he, hc.2]⟩
        rw [if_neg hit, if_neg hne]
        ring

theorem aggLoop_dates (rs : List Record) :
    ∀ (agg : AggDict) (ds : List String) (agg2 : AggDict) (ds2 : List String),
      aggLoop rs agg ds = some (agg2, ds2) →
      ∀ d, d ∈ ds2 ↔ d ∈ ds ∨ ∃ r ∈ rs, effD r = some d := by
  induction rs with
  | nil =>
    intro agg ds agg2 ds2 h d
    simp [aggLoop] at h
    simp [h.2.symm]
  | cons r rs ih =>
    intro agg ds agg2 ds2 h d
    simp only [aggLoop] at h
    rcases he : effD r with _ | e
    · rw [he] at h; exact absurd h (by simp)
    · rw [he] at h
      rw [ih _ _ _ _ h d]
      simp only [List.mem_append, List.mem_singleton, List.mem_cons, List.not_mem_nil, or_false]
      constructor
      · rintro (⟨hd | hd⟩ | ⟨r2, hr2, hr2e⟩)
        · exact Or.inl hd
        · exact Or.inr ⟨r, Or.inl rfl, by rw [he, hd]⟩
        · exact Or.inr ⟨r2, Or.inr hr2, hr2e⟩
      · rintro (hd | ⟨r2, hr2 | hr2, hr2e⟩)
        · exact Or.inl (Or.inl hd)
        · left; right
          rw [hr2] at hr2e; rw [he] at hr2e
          exact (Option.some.inj hr2e).symm
        · exact Or.inr ⟨r2, hr2, hr2e⟩

theorem aggLoop_total (rs : List Record) :
    ∀ (agg : AggDict) (ds : List String),
      (∀ r ∈ rs, (effD r).isSome) → (aggLoop rs agg ds).isSome := by
  induction rs with
  | nil => intro agg ds _; simp [aggLoop]
  | cons r rs ih =>
    intro agg ds h
    have hr := h r (by simp)
    rcases he : effD r with _ | e
    · rw [he] at hr; simp at hr
    · simp only [aggLoop, he]
      exact ih _ _ (fun r2 hr2 => h r2 (by simp [hr2]))

theorem aggLoop_raises (rs : List Record) :
    ∀ (agg : AggDict) (ds : List String) (r : Record),
      r ∈ rs → effD r = none → aggLoop rs agg ds = none := by
  induction rs with
  | nil => intro agg ds r h; simp at h
  | cons r2 rs ih =>
    intro agg ds r h he
    rcases List.mem_cons.1 h with h | h
    · subst h; simp [aggLoop, he]
    · rcases he2 : effD r2 with _ | e2
      · simp [aggLoop, he2]
      · simp only [aggLoop, he2]
        exact ih _ _ r h he

/-- C1: for every record list accepted by the aggregator, every matrix
cell keyed by (issuer_name, item_description) and an effective date
(issue_date + adjustment_days, the shift applied only when the adjustment
is non-zero) accumulates, starting from zero, exactly the sum of the
quantities of the records with that key and that effective date; and the
returned DateAxis is the ascending-sorted deduplicated list of all
effective dates of the input. -/
theorem aggregate_data_cells_and_axis (records : List Record) (agg : AggDict)
    (dates : List String) (h : aggregate_data records = some (agg, dates)) :
    (∀ k d, cellOf agg k d = sumQ k d records) ∧
    dates.Sorted strLe ∧ dates.Nodup ∧
    (∀ d, d ∈ dates ↔ ∃ r ∈ records, effD r = some d) := by
  unfold aggregate_data at h
  rcases hl : aggLoop records [] [] with _ | p
  · rw [hl] at h; exact absurd h (by simp)
  · rw [hl] at h
    simp only [Option.map_some'] at h
    have h2 := Option.some.inj h
    have hagg : p.1 = agg := congrArg Prod.fst h2
    have hdates : List.insertionSort strLe p.2.dedup = dates := congrArg Prod.snd h2
    have hloop : aggLoop records [] [] = some (p.1, p.2) := hl
    refine ⟨?_, ?_, ?_, ?_⟩
    · intro k d
      have := aggLoop_cell records [] [] p.1 p.2 hloop k d
      rw [hagg] at this
      rw [this]
      have hz : cellOf ([] : AggDict) k d = 0 := rfl
      rw [hz, zero_add]
    · rw [← hdates]
      exact List.sorted_insertionSort strLe p.2.dedup
    · rw [← hdates]
      exact ((List.perm_insertionSort strLe p.2.dedup).nodup_iff).mpr (List.nodup_dedup p.2)
    · intro d
      rw [← hdates]
      rw [(List.perm_insertionSort strLe p.2.dedup).mem_iff, List.mem_dedup]
      have := aggLoop_dates records [] [] p.1 p.2 hloop d
      rw [this]
      simp

/-- Witness for C1: the two records of the spec example, quantities 3 and
4.5 on the same key and date, accumulate to the 7.5 cell, and the axis is
the singleton of that date. -/
theorem aggregate_data_cells_and_axis_witness :
    cellOf [(("ACME", "Widget"), [("2024-01-05", (15 : ℚ)/2)])] ("ACME", "Widget") "2024-01-05" =
      sumQ ("ACME", "Widget") "2024-01-05"
        [⟨"ACME", "094", "Widget", "2024-01-05", 3, 0⟩,
         ⟨"ACME", "094", "Widget", "2024-01-05", 9/2, 0⟩] ∧
    List.Sorted strLe ["2024-01-05"] ∧
    cellOf [(("ACME", "Widget"), [("2024-01-05", (15 : ℚ)/2)])] ("ACME", "Widget") "2024-01-05" =
      15/2 := by
  have hin : aggregate_data
      [⟨"ACME", "094", "Widget", "2024-01-05", 3, 0⟩,
       ⟨"ACME", "094", "Widget", "2024-01-05", 9/2, 0⟩] =
      some ([(("ACME", "Widget"), [("2024-01-05", (15 : ℚ)/2)])], ["2024-01-05"]) := by
    norm_num [aggregate_data, aggLoop, effD, aggStep, alUpd, recKey,
      List.insertionSort, List.orderedInsert]
  have h := aggregate_data_cells_and_axis _ _ _ hin
  exact ⟨h.1 ("ACME", "Widget") "2024-01-05", h.2.1, by norm_num [cellOf, alGet, alFind]⟩

/-- C9 (amended): aggregation never raises when every record with a
non-zero adjustment has an issue date that parses in the YYYY-MM-DD
format AND whose shifted date stays within the supported calendar range;
a record with adjustment 0 passes its date string through verbatim
unparsed; and a record with a non-zero adjustment and a malformed date
string makes the aggregation raise. -/
theorem aggregate_totality (records : List Record) :
    ((∀ r ∈ records, r.date_adjustment ≠ 0 →
        ∃ dt, parseDate r.issue_date = some dt ∧
          (addDays dt r.date_adjustment).isSome = true) →
      (aggregate_data records).isSome = true) ∧
    (∀ r : Record, r.date_adjustment = 0 → effD r = some r.issue_date) ∧
    (∀ r ∈ records, r.date_adjustment ≠ 0 → parseDate r.issue_date = none →
      aggregate_data records = none) := by
  refine ⟨?_, ?_, ?_⟩
  · intro h
    unfold aggregate_data
    have htot := aggLoop_total records [] [] ?_
    · rcases hl : aggLoop records [] [] with _ | p
      · rw [hl] at htot; simp at htot
      · simp [hl]
    · intro r hr
      unfold effD
      by_cases ha : r.date_adjustment ≠ 0
      · obtain ⟨dt, hdt, hadd⟩ := h r hr ha
        rw [if_pos ha, hdt]
        rcases haa : addDays dt r.date_adjustment with _ | d2
        · rw [haa] at hadd; simp at hadd
        · simp [haa]
      · rw [if_neg ha]; simp
  · intro r h0
    unfold effD
    rw [if_neg (by simp [h0])]
  · intro r hr ha hp
    unfold aggregate_data
    rw [aggLoop_raises records [] [] r hr (by unfold effD; rw [if_pos ha, hp])]
    rfl

/-- Counterexample to C9 as stated: the record has a parseable issue date
(0001-01-01) and a non-zero adjustment, yet aggregation raises, because
the shifted date leaves the supported calendar range (Python raises
OverflowError in the timedelta addition). -/
theorem aggregate_totality_cx :
    (parseDate "0001-01-01").isSome = true ∧
    (⟨"I", "V", "X", "0001-01-01", 1, -1⟩ : Record).date_adjustment ≠ 0 ∧
    aggregate_data [⟨"I", "V", "X", "0001-01-01", 1, -1⟩] = none := by
  refine ⟨by decide, by decide, ?_⟩
  have heff : effD ⟨"I", "V", "X", "0001-01-01", 1, -1⟩ = none := by decide
  unfold aggregate_data
  rw [aggLoop_raises _ [] [] _ (by simp) heff]
  rfl

/-- Witness for the amended C9: a record with adjustment -1 on a date well
inside the range keeps aggregation total, and a record with adjustment 0
keeps its date string verbatim. -/
theorem aggregate_totality_witness :
    (aggregate_data [⟨"I", "V", "X", "2024-03-10", 1, -1⟩]).isSome = true ∧
    effD ⟨"I", "V", "X", "2024-03-10", 1, 0⟩ = some "2024-03-10" := by
  have h := aggregate_totality [⟨"I", "V", "X", "2024-03-10", 1, -1⟩]
  refine ⟨h.1 ?_, h.2.1 ⟨"I", "V", "X", "2024-03-10", 1, 0⟩ rfl⟩
  intro r hr ha
  have hr2 : r = ⟨"I", "V", "X", "2024-03-10", 1, -1⟩ := by simpa using hr
  subst hr2
  exact ⟨⟨2024, 3, 10⟩, by decide, by decide⟩

/-- C7: an empty input string or a malformed XML document (both modelled by
an absent parse outcome) makes the normalizer return the empty record
list with both cursor components absent, raising nothing. -/
theorem parse_invoices_empty_or_malformed :
    parse_invoices none = ([], none, none) := rfl

/-- The cursor components returned by the normalizer do not depend on the
invoicesDoc branch. -/
theorem parse_invoices_cursor (root : Xml) :
    (parse_invoices (some root)).2.1 =
      ((findE root "continuationToken").bind (fun ct => findE ct "nextPartitionKey")).bind
        Xml.text ∧
    (parse_invoices (some root)).2.2 =
      ((findE root "continuationToken").bind (fun ct => findE ct "nextRowKey")).bind
        Xml.text := by
  unfold parse_invoices
  rcases h : findE root "invoicesDoc" with _ | idoc <;> simp [h]

theorem curSeqFrom_shift (server : Server) (cur : Option String × Option String) :
    ∀ j, curSeqFrom (fun i => server (i + 1)) (pageCursor (server 0 cur)) j =
      curSeqFrom server cur (j + 1) := by
  intro j
  induction j with
  | zero => rfl
  | succ j ih =>
    show pageCursor _ = pageCursor _
    rw [ih]

theorem respFrom_shift (server : Server) (cur : Option String × Option String) (j : Nat) :
    respFrom (fun i => server (i + 1)) (pageCursor (server 0 cur)) j =
      respFrom server cur (j + 1) := by
  unfold respFrom
  rw [curSeqFrom_shift]

/-- The pagination loop, started anywhere, accumulates exactly the
concatenation of the page record lists up to the first stopping call. -/
theorem fetchLoop_concat (k : Nat) :
    ∀ (server : Server) (cur : Option String × Option String) (fuel : Nat),
      (∀ j, j < k → contin (respFrom server cur j) = true) →
      contin (respFrom server cur k) = false →
      k < fuel →
      fetchLoop fuel server cur =
        some (((List.range (k + 1)).map
          (fun j => pageRecords (respFrom server cur j))).flatten) := by
  induction k with
  | zero =>
    intro server cur fuel hc hs hf
    obtain ⟨f, rfl⟩ : ∃ f, fuel = f + 1 := ⟨fuel - 1, by omega⟩
    have h0 : respFrom server cur 0 = server 0 cur := rfl
    rw [h0] at hs
    simp only [fetchLoop]
    split
    next heq =>
      simp [pageRecords, respFrom, curSeqFrom, heq, List.range_succ]
    next x heq =>
      rw [heq] at hs
      have hcond : (pyTruthy (parse_invoices (some x)).2.1 &&
          pyTruthy (parse_invoices (some x)).2.2) = false := hs
      simp only [hcond, Bool.false_eq_true, if_false]
      simp [pageRecords, respFrom, curSeqFrom, heq, List.range_succ]
  | succ k ih =>
    intro server cur fuel hc hs hf
    obtain ⟨f, rfl⟩ : ∃ f, fuel = f + 1 := ⟨fuel - 1, by omega⟩
    have h0 : contin (respFrom server cur 0) = true := hc 0 (Nat.succ_pos k)
    have hresp0 : respFrom server cur 0 = server 0 cur := rfl
    rw [hresp0] at h0
    simp only [fetchLoop]
    split
    next heq =>
      rw [heq] at h0
      exact absurd h0 (by simp [contin])
    next x heq =>
      rw [heq] at h0
      have hcond : (pyTruthy (parse_invoices (some x)).2.1 &&
          pyTruthy (parse_invoices (some x)).2.2) = true := h0
      simp only [hcond, if_true]
      have hpc : ((parse_invoices (some x)).2.1, (parse_invoices (some x)).2.2) =
          pageCursor (server 0 cur) := by rw [heq]; rfl
      rw [hpc]
      have htail := ih (fun i => server (i + 1)) (pageCursor (server 0 cur)) f
        (fun j hj => by rw [respFrom_shift]; exact hc (j + 1) (by omega))
        (by rw [respFrom_shift]; exact hs)
        (by omega)
      rw [htail]
      simp only [Option.map_some']
      have hhead : pageRecords (respFrom server cur 0) = (parse_invoices (some x)).1 := by
        rw [hresp0, heq]; rfl
      have hsplit : (List.map (fun j => pageRecords (respFrom server cur j))
          (List.range (k + 1 + 1))).flatten =
          pageRecords (respFrom server cur 0) ++
          (List.map (fun j => pageRecords (respFrom server cur (j + 1)))
            (List.range (k + 1))).flatten := by
        rw [List.range_succ_eq_map, List.map_cons, List.map_map, List.flatten_cons]
        rfl
      rw [hsplit, hhead]
      have hmaps : List.map (fun j => pageRecords (respFrom (fun i => server (i + 1))
          (pageCursor (server 0 cur)) j)) (List.range (k + 1)) =
          List.map (fun j => pageRecords (respFrom server cur (j + 1)))
            (List.range (k + 1)) := by
        apply List.map_congr_left
        intro j _
        rw [respFrom_shift]
      rw [hmaps]

/-- C2: for every transport and every run whose induced response sequence
first stops at call k (a failed call or a page missing a truthy cursor
component, a partially populated cursor counting as a stop), the loop,
started with the empty cursor, fetches exactly the calls 0..k and returns
the concatenation of the per-page record lists in fetch order, whose
length is the sum of the per-page record counts. -/
theorem paginator_concat (server : Server) (k fuel : Nat)
    (hc : ∀ j, j < k → contin (respAt server j) = true)
    (hs : contin (respAt server k) = false)
    (hf : k < fuel) :
    fetch_all_invoices_for_period fuel server =
      some (((List.range (k + 1)).map (fun j => pageRecords (respAt server j))).flatten) ∧
    (((List.range (k + 1)).map (fun j => pageRecords (respAt server j))).flatten).length =
      ((List.range (k + 1)).map (fun j => (pageRecords (respAt server j)).length)).sum := by
  constructor
  · exact fetchLoop_concat k server (none, none) fuel hc hs hf
  · rw [List.length_flatten, List.map_map]
    rfl

/-- Witness for C2: a transport serving one full page and then failing
stops after the second call and returns exactly the first page records. -/
theorem paginator_concat_witness :
    fetch_all_invoices_for_period 3 serverW =
      some (((List.range 2).map (fun j => pageRecords (respAt serverW j))).flatten) ∧
    (((List.range 2).map (fun j => pageRecords (respAt serverW j))).flatten).length =
      ((List.range 2).map (fun j => (pageRecords (respAt serverW j)).length)).sum := by
  have h := paginator_concat serverW 1 3 ?_ ?_ (by omega)
  · exact h
  · intro j hj
    have hj0 : j = 0 := by omega
    subst hj0
    decide
  · decide

/-- C8: a cursor component element that is present in the XML but carries
empty text comes back from the normalizer as an absent component, so the
pagination loop stops instead of requesting a further page, while the
records of that final page are still included, because accumulation
happens before the cursor check. -/
theorem empty_cursor_text_stops (x ct e : Xml) (server : Server) (fuel : Nat)
    (hct : findE x "continuationToken" = some ct)
    (he : findE ct "nextPartitionKey" = some e)
    (ht : e.text = none ∨ e.text = some "")
    (hs : server 0 (none, none) = Resp.page x)
    (hf : 0 < fuel) :
    pyTruthy (parse_invoices (some x)).2.1 = false ∧
    contin (Resp.page x) = false ∧
    fetch_all_invoices_for_period fuel server = some ((parse_invoices (some x)).1) := by
  have hnpk : (parse_invoices (some x)).2.1 = e.text := by
    rw [(parse_invoices_cursor x).1, hct]
    simp [he]
  have h1 : pyTruthy (parse_invoices (some x)).2.1 = false := by
    rw [hnpk]
    rcases ht with ht | ht <;> simp [ht, pyTruthy]
  have h2 : contin (Resp.page x) = false := by
    show (pyTruthy (parse_invoices (some x)).2.1 && pyTruthy (parse_invoices (some x)).2.2) =
      false
    rw [h1, Bool.false_and]
  refine ⟨h1, h2, ?_⟩
  have hrun := fetchLoop_concat 0 server (none, none) fuel
    (fun j hj => absurd hj (by omega))
    (by
      have hr : respFrom server (none, none) 0 = server 0 (none, none) := rfl
      rw [hr, hs]
      exact h2)
    hf
  rw [fetch_all_invoices_for_period, hrun]
  have : pageRecords (respFrom server (none, none) 0) = (parse_invoices (some x)).1 := by
    have hr : respFrom server (none, none) 0 = server 0 (none, none) := rfl
    rw [hr, hs]
    rfl
  simp [List.range_succ, this]

/-- Witness for C8: a server always answering the final page (whose
nextPartitionKey element is empty) makes the loop stop after one call,
keeping that page's record. -/
theorem empty_cursor_text_stops_witness :
    pyTruthy (parse_invoices (some pageEndW)).2.1 = false ∧
    contin (Resp.page pageEndW) = false ∧
    fetch_all_invoices_for_period 5 serverEndW = some ((parse_invoices (some pageEndW)).1) :=
  empty_cursor_text_stops pageEndW
    (.elem "continuationToken" none
      [.elem "nextPartitionKey" none [], .elem "nextRowKey" (some "r2") []])
    (.elem "nextPartitionKey" none []) serverEndW 5
    (by rfl) (by rfl) (Or.inl rfl) rfl (by omega)

/-! The normalizer: skipping and trimming facts. -/

theorem mem_foldr_append {α β : Type} (f : α → List β) (L : List α) (r : β) :
    r ∈ (L.map f).foldr (· ++ ·) [] ↔ ∃ x ∈ L, r ∈ f x := by
  induction L with
  | nil => simp
  | cons a t ih => simp [ih]

theorem detailRecord_shape (n v dt : String) (d : Xml) (r : Record)
    (h : detailRecord n v dt d = some r) :
    r.issuer_name = n ∧ r.issuer_vat = v ∧ (∃ a, r.item_descr = pyStrip a) ∧
    r.issue_date = dt ∧ r.date_adjustment = 0 := by
  unfold detailRecord at h
  repeat' split at h
  all_goals first
    | (have h2 := Option.some.inj h
       subst h2
       exact ⟨rfl, rfl, ⟨_, rfl⟩, rfl, rfl⟩)
    | exact absurd h (by simp)

theorem vatOf_shape (issuer : Xml) :
    vatOf issuer = "" ∨ ∃ t, vatOf issuer = pyStrip t := by
  unfold vatOf
  repeat' split
  all_goals first | exact Or.inl rfl | exact Or.inr ⟨_, rfl⟩

theorem vatOf_absent (issuer : Xml) (h : findE issuer "vatNumber" = none) :
    vatOf issuer = "" := by
  unfold vatOf
  rw [h]

/-- The successful branch of invoiceRecords. -/
theorem invoiceRecords_branch (inv issuer ne hdr de : Xml) (nt dt0 : String)
    (hiss : findE inv "issuer" = some issuer)
    (hne : findE issuer "name" = some ne) (hnt : ne.text = some nt) (hne2 : nt ≠ "")
    (hhdr : findE inv "invoiceHeader" = some hdr)
    (hde : findE hdr "issueDate" = some de) (hdt : de.text = some dt0) (hdt2 : dt0 ≠ "") :
    invoiceRecords inv = (findAllE inv "invoiceDetails").filterMap
      (detailRecord (pyStrip nt) (vatOf issuer) (pyStrip dt0)) := by
  unfold invoiceRecords
  simp only [hiss, hne, hnt, hhdr, hde, hdt, if_neg hne2, if_neg hdt2]

/-- Trimming shape of every record an invoice contributes. -/
theorem invoiceRecords_mem_shape (inv : Xml) (r : Record) (hr : r ∈ invoiceRecords inv) :
    (∃ a, r.issuer_name = pyStrip a) ∧ (r.issuer_vat = "" ∨ ∃ a, r.issuer_vat = pyStrip a) ∧
    (∃ a, r.item_descr = pyStrip a) ∧ (∃ a, r.issue_date = pyStrip a) ∧
    r.date_adjustment = 0 := by
  unfold invoiceRecords at hr
  repeat' split at hr
  all_goals try exact absurd hr (List.not_mem_nil r)
  obtain ⟨d, hd, hrec⟩ := List.mem_filterMap.1 hr
  obtain ⟨h1, h2, h3, h4, h5⟩ := detailRecord_shape _ _ _ _ _ hrec
  refine ⟨⟨_, h1⟩, ?_, h3, ⟨_, h4⟩, h5⟩
  rw [h2]
  exact vatOf_shape _

/-- C3: an invoice lacking an issuer (or issuer name, or invoiceHeader, or
issueDate, by element absence or falsy text) contributes zero records; an
invoiceDetails line lacking the item description or quantity, or with
falsy texts, or with a quantity that does not parse as a number, is
skipped while the sibling lines of the same invoice still produce their
records; every stored text field is the strip of some source text, and an
absent issuer identifier is stored as the empty string. -/
theorem normalizer_skips_and_trims (inv bad : Xml) (pre post : List Xml)
    (n v dt : String) (doc : Option Xml) (r : Record) :
    ((findE inv "issuer" = none ∨
      (∃ issuer, findE inv "issuer" = some issuer ∧
        (findE issuer "name" = none ∨
         ∃ ne, findE issuer "name" = some ne ∧ (ne.text = none ∨ ne.text = some "")))) →
      invoiceRecords inv = []) ∧
    ((findE inv "invoiceHeader" = none ∨
      (∃ hdr, findE inv "invoiceHeader" = some hdr ∧
        (findE hdr "issueDate" = none ∨
         ∃ de, findE hdr "issueDate" = some de ∧ (de.text = none ∨ de.text = some "")))) →
      invoiceRecords inv = []) ∧
    ((findE bad "itemDescr" = none ∨ findE bad "quantity" = none ∨
      (∃ e, findE bad "itemDescr" = some e ∧ (e.text = none ∨ e.text = some "")) ∨
      (∃ e, findE bad "quantity" = some e ∧ (e.text = none ∨ e.text = some "")) ∨
      (∃ e t, findE bad "quantity" = some e ∧ e.text = some t ∧ pyFloat t = none)) →
      detailRecord n v dt bad = none) ∧
    (detailRecord n v dt bad = none →
      (pre ++ bad :: post).filterMap (detailRecord n v dt) =
        (pre ++ post).filterMap (detailRecord n v dt)) ∧
    (r ∈ (parse_invoices doc).1 →
      (∃ a, r.issuer_name = pyStrip a) ∧ (r.issuer_vat = "" ∨ ∃ a, r.issuer_vat = pyStrip a) ∧
      (∃ a, r.item_descr = pyStrip a) ∧ (∃ a, r.issue_date = pyStrip a)) ∧
    (∀ issuer, findE inv "issuer" = some issuer → findE issuer "vatNumber" = none →
      ∀ r2 ∈ invoiceRecords inv, r2.issuer_vat = "") := by
  refine ⟨?_, ?_, ?_, ?_, ?_, ?_⟩
  · rintro (h | ⟨issuer, hiss, h | ⟨ne, hne, ht | ht⟩⟩)
    · simp [invoiceRecords, h]
    · simp [invoiceRecords, hiss, h]
    · simp [invoiceRecords, hiss, hne, ht]
    · simp [invoiceRecords, hiss, hne, ht]
  · rintro (h | ⟨hdr, hhdr, h | ⟨de, hde, ht | ht⟩⟩) <;>
      unfold invoiceRecords <;>
      rcases hiss : findE inv "issuer" with _ | issuer <;> simp <;>
      rcases hne : findE issuer "name" with _ | ne <;> simp <;>
      rcases hnt : ne.text with _ | nt <;> simp <;>
      by_cases hnt2 : nt = "" <;> simp [hnt2, *]
  · intro hbad
    unfold detailRecord
    repeat' split
    all_goals first
      | rfl
      | (exfalso
         rcases hbad with h | h | ⟨e, he, ht | ht⟩ | ⟨e, he, ht | ht⟩ | ⟨e, t, he, ht, hq⟩ <;>
           simp_all)
  · intro h
    rw [List.filterMap_append, List.filterMap_append, List.filterMap_cons, h]
  · intro hr
    rcases doc with _ | root
    · exact absurd hr (by simp [parse_invoices])
    · simp only [parse_invoices] at hr
      split at hr
      · exact absurd hr (by simp)
      · obtain ⟨inv2, _, hr2⟩ := (mem_foldr_append invoiceRecords _ r).1 hr
        obtain ⟨a, b, c, d, _⟩ := invoiceRecords_mem_shape inv2 r hr2
        exact ⟨a, b, c, d⟩
  · intro issuer hiss hvat r2 hr2
    unfold invoiceRecords at hr2
    simp only [hiss] at hr2
    repeat' split at hr2
    all_goals try exact absurd hr2 (List.not_mem_nil r2)
    obtain ⟨d, hd, hrec⟩ := List.mem_filterMap.1 hr2
    have hv := (detailRecord_shape _ _ _ _ _ hrec).2.1
    rw [hv, vatOf_absent issuer hvat]

/-- Witness for C3: the no-name invoice yields nothing, the non-numeric
quantity line is skipped while its siblings survive, the parsed record of
the full page carries trimmed fields, and the no-vat invoice stores the
empty identifier. -/
theorem normalizer_skips_and_trims_witness :
    invoiceRecords invNoNameW = [] ∧
    detailRecord "ACME" "094" "2024-01-05" badDetailW = none ∧
    ([goodDetailW] ++ badDetailW :: [goodDetailW]).filterMap
        (detailRecord "ACME" "094" "2024-01-05") =
      ([goodDetailW] ++ [goodDetailW]).filterMap (detailRecord "ACME" "094" "2024-01-05") ∧
    ((∃ a, ("ACME" : String) = pyStrip a) ∧
     ((("094" : String) = "" ∨ ∃ a, ("094" : String) = pyStrip a)) ∧
     (∃ a, ("Widget" : String) = pyStrip a) ∧ (∃ a, ("2024-01-05" : String) = pyStrip a)) ∧
    (⟨"ACME", "", "Widget", "2024-01-05", decValue ['3'] [] 0, 0⟩ : Record) ∈
      invoiceRecords invNoVatW ∧
    (⟨"ACME", "", "Widget", "2024-01-05", decValue ['3'] [] 0, 0⟩ : Record).issuer_vat = "" := by
  have h := normalizer_skips_and_trims invNoNameW badDetailW [goodDetailW] [goodDetailW]
    "ACME" "094" "2024-01-05" (some pageW)
    ⟨"ACME", "094", "Widget", "2024-01-05", decValue ['2'] [] 0, 0⟩
  have hbad : detailRecord "ACME" "094" "2024-01-05" badDetailW = none :=
    h.2.2.1 (Or.inr (Or.inr (Or.inr (Or.inr
      ⟨.elem "quantity" (some "abc") [], "abc", rfl, rfl, by decide⟩))))
  have hmem : (⟨"ACME", "094", "Widget", "2024-01-05", decValue ['2'] [] 0, 0⟩ : Record) ∈
      (parse_invoices (some pageW)).1 :=
    List.mem_singleton.mpr rfl
  have hmem2 : (⟨"ACME", "", "Widget", "2024-01-05", decValue ['3'] [] 0, 0⟩ : Record) ∈
      invoiceRecords invNoVatW :=
    List.mem_singleton.mpr rfl
  refine ⟨?_, hbad, h.2.2.2.1 hbad, h.2.2.2.2.1 hmem, hmem2, ?_⟩
  · exact h.1 (Or.inr ⟨.elem "issuer" none [.elem "vatNumber" (some "094") []], rfl, Or.inl rfl⟩)
  · have h2 := normalizer_skips_and_trims invNoVatW badDetailW [] [] "" "" "" none
      ⟨"", "", "", "", 0, 0⟩
    exact h2.2.2.2.2.2 (.elem "issuer" none [.elem "name" (some "ACME") []]) rfl rfl
      ⟨"ACME", "", "Widget", "2024-01-05", decValue ['3'] [] 0, 0⟩ hmem2

/-! The VAT filter. -/

theorem alFind_foldl_upd (l : List (String × Int)) :
    ∀ (m : List (String × Int)) (v : String) (a : Int),
      alFind (l.foldl (fun m2 p => alUpd m2 (pyStrip p.1) 0 (fun _ => p.2)) m) v = some a →
      (alFind m v).isSome = true ∨ v ∈ l.map (fun p => pyStrip p.1) := by
  induction l with
  | nil =>
    intro m v a h
    left
    simp only [List.foldl_nil] at h
    rw [h]
    rfl
  | cons p t ih =>
    intro m v a h
    rcases ih _ v a h with h2 | h2
    · rw [alFind_alUpd] at h2
      by_cases hv : v = pyStrip p.1
      · right; simp [hv]
      · rw [if_neg hv] at h2
        left
        exact h2
    · right; simp [h2]

/-- C4 (amended): the filter returns exactly those records whose stored
issuer identifier (already trimmed by the normalizer) is a key of the
trimmed table, each surviving record carrying the mapped signed-integer
day adjustment; every key of the built map is the strip of some table
key; unmatched records are silently dropped (they appear in the output
only through the same membership equivalence); and when no table is
supplied every record passes through with adjustment 0. -/
theorem filter_by_vat_spec (records : List Record) (vat_data : List (String × Int))
    (x : Record) :
    (x ∈ filter_by_vat_numbers records vat_data ↔
      ∃ r ∈ records, alFind (vatMap vat_data) r.issuer_vat = some x.date_adjustment ∧
        x = setAdj r x.date_adjustment) ∧
    (∀ v a, alFind (vatMap vat_data) v = some a → v ∈ vat_data.map (fun p => pyStrip p.1)) ∧
    (x ∈ pass_all_with_zero records ↔ ∃ r ∈ records, x = setAdj r 0) := by
  refine ⟨?_, ?_, ?_⟩
  · rw [filter_by_vat_numbers, List.mem_filterMap]
    constructor
    · rintro ⟨r, hr, hf⟩
      rcases hfind : alFind (vatMap vat_data) r.issuer_vat with _ | a
      · rw [hfind] at hf; exact absurd hf (by simp)
      · rw [hfind] at hf
        have hx := Option.some.inj hf
        subst hx
        exact ⟨r, hr, hfind, rfl⟩
    · rintro ⟨r, hr, hfind, hx⟩
      refine ⟨r, hr, ?_⟩
      rw [hfind]
      show some (setAdj r x.date_adjustment) = some x
      rw [← hx]
  · intro v a h
    rcases alFind_foldl_upd vat_data [] v a h with h2 | h2
    · exact absurd h2 (by simp [alFind])
    · exact h2
  · rw [pass_all_with_zero, List.mem_map]
    constructor
    · rintro ⟨r, hr, hx⟩
      exact ⟨r, hr, hx.symm⟩
    · rintro ⟨r, hr, hx⟩
      exact ⟨r, hr, hx.symm⟩

/-- Counterexample to C4 as stated: a record whose trimmed identifier
equals the trimmed table key is nevertheless dropped, because the code
trims only the table keys and compares the stored identifier verbatim. -/
theorem filter_by_vat_trim_cx :
    pyStrip " 094 " = pyStrip "094" ∧
    filter_by_vat_numbers [⟨"A", " 094 ", "W", "2024-01-05", 1, 0⟩] [("094", 1)] = [] := by
  decide

/-- Witness for the amended C4: a record whose stored identifier matches
the trimmed table key survives with the adjustment attached, and the
no-table branch passes a record through with adjustment 0. -/
theorem filter_by_vat_spec_witness :
    (⟨"A", "094", "W", "2024-01-05", 1, -1⟩ : Record) ∈
      filter_by_vat_numbers [⟨"A", "094", "W", "2024-01-05", 1, 0⟩] [(" 094 ", -1)] ∧
    (⟨"B", "X", "W", "2024-01-05", 1, 0⟩ : Record) ∈
      pass_all_with_zero [⟨"B", "X", "W", "2024-01-05", 1, 7⟩] := by
  constructor
  · exact (filter_by_vat_spec [⟨"A", "094", "W", "2024-01-05", 1, 0⟩] [(" 094 ", -1)]
      ⟨"A", "094", "W", "2024-01-05", 1, -1⟩).1.mpr
      ⟨⟨"A", "094", "W", "2024-01-05", 1, 0⟩, by decide, by decide, by decide⟩
  · exact (filter_by_vat_spec [⟨"B", "X", "W", "2024-01-05", 1, 7⟩] []
      ⟨"B", "X", "W", "2024-01-05", 1, 0⟩).2.2.mpr
      ⟨⟨"B", "X", "W", "2024-01-05", 1, 7⟩, by decide, by decide⟩

/-! The renderers. -/

/-- C5: both renderers emit the data rows in ascending order of the
(issuer_name, item_description) pair under lexicographic string
comparison, one row per key of the matrix, with the two leading cells
holding issuer name and item description; a date cell carries the summed
quantity exactly when it is strictly positive and is blank otherwise, the
spreadsheet keeping the numeric value and the text form the integer
truncation of it. -/
theorem renderer_data_rows (agg : AggDict) (dates : List String)
    (lines : List String) (grid : List (List XCell))
    (hn : (agg.map Prod.fst).Nodup)
    (hc : generate_csv agg dates = some lines)
    (hx : generate_excel agg dates = some grid) :
    (sortedItems agg).Perm agg ∧
    List.Sorted itemLE (sortedItems agg) ∧
    ((sortedItems agg).map Prod.fst).Nodup ∧
    lines.drop 2 = (sortedItems agg).map (fun it =>
      semiJoin (it.1.1 :: it.1.2 :: dates.map (csvCell it.2))) ∧
    grid.drop 2 = (sortedItems agg).map (fun it =>
      XCell.str it.1.1 :: XCell.str it.1.2 :: dates.map (xlCell it.2)) ∧
    (∀ (inner : List (String × ℚ)) (d : String),
      (0 < alGet inner d 0 →
        csvCell inner d = intStr (pyInt (alGet inner d 0)) ∧
        xlCell inner d = XCell.num (alGet inner d 0)) ∧
      (alGet inner d 0 ≤ 0 → csvCell inner d = "" ∧ xlCell inner d = XCell.blank)) := by
  obtain ⟨names, hnm, hlines⟩ := Option.map_eq_some'.1 hc
  obtain ⟨names2, hnm2, hgrid⟩ := Option.map_eq_some'.1 hx
  refine ⟨List.perm_insertionSort itemLE agg,
    List.sorted_insertionSort itemLE agg,
    (((List.perm_insertionSort itemLE agg).map Prod.fst).nodup_iff).mpr hn,
    ?_, ?_, ?_⟩
  · rw [← hlines]
    rfl
  · rw [← hgrid]
    rfl
  · intro inner d
    constructor
    · intro h
      rw [csvCell, xlCell, if_pos h, if_pos h]
      exact ⟨rfl, rfl⟩
    · intro h
      rw [csvCell, xlCell, if_neg (not_lt.mpr h), if_neg (not_lt.mpr h)]
      exact ⟨rfl, rfl⟩

/-- Witness for C5: on the concrete matrix the data rows come out Gadget
before Widget, 11/2 truncates to 5 in the text form and stays 11/2 in the
spreadsheet, and the zero and absent cells are blank in both. -/
theorem renderer_data_rows_witness :
    List.Sorted itemLE (sortedItems aggW) ∧
    csvW.drop 2 = (sortedItems aggW).map (fun it =>
      semiJoin (it.1.1 :: it.1.2 :: datesW.map (csvCell it.2))) ∧
    gridOutW.drop 2 = (sortedItems aggW).map (fun it =>
      XCell.str it.1.1 :: XCell.str it.1.2 :: datesW.map (xlCell it.2)) ∧
    csvW.drop 2 = ["ACME;Gadget;5;", "ACME;Widget;5;"] ∧
    gridOutW.drop 2 =
      [[XCell.str "ACME", XCell.str "Gadget", XCell.num 5, XCell.blank],
       [XCell.str "ACME", XCell.str "Widget", XCell.num (Rat.mk' 11 2), XCell.blank]] := by
  have h := renderer_data_rows aggW datesW csvW gridOutW (by decide) (by decide) (by decide)
  exact ⟨h.2.1, h.2.2.2.1, h.2.2.2.2.1, by decide, by decide⟩

/-- C6 (amended): in the spreadsheet encoding header row 1 holds the two
labels Issuer and Item Description followed by the ISO dates, and header
row 2 two blank cells followed by the weekday names; in the text encoding
BOTH header rows leave the two leading cells blank (no labels), followed
by the dates and the weekday names; every weekday name is drawn from the
fixed Monday-first seven-entry table indexed by the date's weekday. -/
theorem header_rows (agg : AggDict) (dates names : List String)
    (lines : List String) (grid : List (List XCell))
    (hnm : mapOpt get_greek_day_name dates = some names)
    (hc : generate_csv agg dates = some lines)
    (hx : generate_excel agg dates = some grid) :
    lines.take 2 = [";;" ++ semiJoin dates, ";;" ++ semiJoin names] ∧
    grid.take 2 = [XCell.str "Issuer" :: XCell.str "Item Description" :: dates.map XCell.str,
                   XCell.blank :: XCell.blank :: names.map XCell.str] ∧
    greekDays.length = 7 ∧ greekDays.getD 0 "" = "Δευτέρα" ∧
    (∀ d dt, parseDate d = some dt →
      get_greek_day_name d = some (greekDays.getD dt.weekday "")) := by
  obtain ⟨n1, hn1, hl⟩ := Option.map_eq_some'.1 hc
  obtain ⟨n2, hn2, hg⟩ := Option.map_eq_some'.1 hx
  rw [hnm] at hn1 hn2
  have e1 := Option.some.inj hn1
  have e2 := Option.some.inj hn2
  subst e1
  subst e2
  refine ⟨?_, ?_, rfl, rfl, ?_⟩
  · rw [← hl]
    rfl
  · rw [← hg]
    rfl
  · intro d dt h
    rw [get_greek_day_name, h]
    rfl

/-- Counterexample to C6 as stated: in the text encoding the first header
row starts with two empty cells, not with the Issuer and Item Description
labels. -/
theorem header_rows_cx :
    generate_csv [] ["2024-01-05"] = some [";;2024-01-05", ";;Παρασκευή"] ∧
    (";;2024-01-05").data.take 6 ≠ ("Issuer" : String).data ∧
    (";;2024-01-05").data.head? = some ';' := by
  decide

/-- Witness for the amended C6: the concrete headers of aggW over datesW,
and the weekday of 2024-01-05 looked up in the Monday-first table
(Friday). -/
theorem header_rows_witness :
    csvW.take 2 = [";;" ++ semiJoin datesW, ";;" ++ semiJoin ["Παρασκευή", "Σάββατο"]] ∧
    gridOutW.take 2 =
      [XCell.str "Issuer" :: XCell.str "Item Description" :: datesW.map XCell.str,
       XCell.blank :: XCell.blank :: (["Παρασκευή", "Σάββατο"].map XCell.str)] ∧
    get_greek_day_name "2024-01-05" =
      some (greekDays.getD (Date.weekday ⟨2024, 1, 5⟩) "") ∧
    greekDays.getD (Date.weekday ⟨2024, 1, 5⟩) "" = "Παρασκευή" := by
  have h := header_rows aggW datesW ["Παρασκευή", "Σάββατο"] csvW gridOutW
    (by decide) (by decide) (by decide)
  exact ⟨h.1, h.2.1, h.2.2.2.2 "2024-01-05" ⟨2024, 1, 5⟩ (by decide), by decide⟩

/-! Field counting in the text encoding. -/

theorem countCh_append (c : Char) (a b : String) :
    countCh c (a ++ b) = countCh c a + countCh c b := by
  unfold countCh
  rw [String.data_append, List.count_append]

theorem countCh_semiJoin_semi (l : List String) (hl : l ≠ []) :
    countCh ';' (semiJoin l) = (l.map (countCh ';')).sum + (l.length - 1) := by
  induction l with
  | nil => exact absurd rfl hl
  | cons x t ih =>
    cases t with
    | nil => simp [semiJoin]
    | cons y t2 =>
      rw [show semiJoin (x :: y :: t2) = x ++ ";" ++ semiJoin (y :: t2) from rfl,
        countCh_append, countCh_append, ih (by simp)]
      have h1 : countCh ';' ";" = 1 := by decide
      rw [h1]
      simp only [List.map_cons, List.sum_cons, List.length_cons]
      omega

theorem countCh_semiJoin_other (c : Char) (hc : c ≠ ';') (l : List String) :
    countCh c (semiJoin l) = (l.map (countCh c)).sum := by
  induction l with
  | nil => simp [semiJoin, countCh]
  | cons x t ih =>
    cases t with
    | nil => simp [semiJoin]
    | cons y t2 =>
      rw [show semiJoin (x :: y :: t2) = x ++ ";" ++ semiJoin (y :: t2) from rfl,
        countCh_append, countCh_append, ih]
      have h1 : countCh c ";" = 0 := by
        unfold countCh
        rw [show (";" : String).data = [';'] from rfl, List.count_singleton]
        simp [Ne.symm hc]
      rw [h1]
      simp only [List.map_cons, List.sum_cons]
      omega

theorem digitChar_isDigit (m : Nat) : (digitChar m).isDigit = true := by
  unfold digitChar
  split <;> decide

theorem mem_natChars_isDigit (f : Nat) :
    ∀ (n : Nat) (c : Char), c ∈ natChars f n → c.isDigit = true := by
  induction f with
  | zero => intro n c hc; simp [natChars] at hc
  | succ f ih =>
    intro n c hc
    unfold natChars at hc
    split at hc
    · rw [List.mem_singleton.1 hc]
      exact digitChar_isDigit n
    · rcases List.mem_append.1 hc with h | h
      · exact ih _ c h
      · rw [List.mem_singleton.1 h]
        exact digitChar_isDigit _

theorem countCh_natStr (c : Char) (hc : c.isDigit = false) (n : Nat) :
    countCh c (natStr n) = 0 := by
  unfold countCh natStr
  rw [List.count_eq_zero]
  intro h
  rw [mem_natChars_isDigit (n + 1) n c h] at hc
  exact absurd hc (by simp)

theorem countCh_intStr (c : Char) (hc : c.isDigit = false) (hm : c ≠ '-') (i : Int) :
    countCh c (intStr i) = 0 := by
  unfold intStr
  split
  · rw [countCh_append, countCh_natStr c hc]
    have h1 : countCh c "-" = 0 := by
      unfold countCh
      rw [show ("-" : String).data = ['-'] from rfl, List.count_singleton]
      simp [Ne.symm hm]
    rw [h1]
  · exact countCh_natStr c hc _

theorem countCh_csvCell (c : Char) (hc : c.isDigit = false) (hm : c ≠ '-')
    (inner : List (String × ℚ)) (d : String) :
    countCh c (csvCell inner d) = 0 := by
  unfold csvCell
  show countCh c (if 0 < alGet inner d 0 then intStr (pyInt (alGet inner d 0)) else "") = 0
  split
  · exact countCh_intStr c hc hm _
  · rfl

theorem takeDigits_spec (l : List Char) :
    (takeDigits l).1 ++ (takeDigits l).2 = l ∧ ∀ c ∈ (takeDigits l).1, c.isDigit = true := by
  induction l with
  | nil => exact ⟨rfl, fun c hc => absurd hc (List.not_mem_nil c)⟩
  | cons x t ih =>
    by_cases hx : x.isDigit
    · have h1 : takeDigits (x :: t) = (x :: (takeDigits t).1, (takeDigits t).2) := by
        simp [takeDigits, hx]
      rw [h1]
      refine ⟨by simp [ih.1], ?_⟩
      intro c hc
      rcases List.mem_cons.1 hc with h | h
      · rw [h]; exact hx
      · exact ih.2 c h
    · have h1 : takeDigits (x :: t) = ([], x :: t) := by
        simp [takeDigits, hx]
      rw [h1]
      exact ⟨rfl, fun c hc => absurd hc (List.not_mem_nil c)⟩

theorem parseDate_chars (s : String) (dt : Date) (h : parseDate s = some dt) :
    ∀ c ∈ s.data, c.isDigit = true ∨ c = '-' := by
  unfold parseDate at h
  split at h
  · next ys r1 heq1 =>
    split at h
    · next ms r2 heq2 =>
      split at h
      · next hcond =>
        intro c hc
        obtain ⟨hsplit1, hdig1⟩ := takeDigits_spec s.data
        obtain ⟨hsplit2, hdig2⟩ := takeDigits_spec r1
        obtain ⟨hsplit3, hdig3⟩ := takeDigits_spec r2
        have hzero : (takeDigits r2).2 = [] := hcond.1
        rw [← hsplit1, heq1] at hc
        rcases List.mem_append.1 hc with h1 | h1
        · exact Or.inl (by rw [← heq1] at h1; exact hdig1 c h1)
        · rcases List.mem_cons.1 h1 with h1 | h1
          · exact Or.inr h1
          · rw [← hsplit2, heq2] at h1
            rcases List.mem_append.1 h1 with h2 | h2
            · exact Or.inl (by rw [← heq2] at h2; exact hdig2 c h2)
            · rcases List.mem_cons.1 h2 with h2 | h2
              · exact Or.inr h2
              · rw [← hsplit3, hzero, List.append_nil] at h2
                exact Or.inl (hdig3 c h2)
      · next => exact absurd h (by simp)
    · next => exact absurd h (by simp)
  · next => exact absurd h (by simp)

theorem parseDate_count (s : String) (dt : Date) (h : parseDate s = some dt)
    (c : Char) (hc : c.isDigit = false) (hm : c ≠ '-') : countCh c s = 0 := by
  unfold countCh
  rw [List.count_eq_zero]
  intro hmem
  rcases parseDate_chars s dt h c hmem with h2 | h2
  · rw [h2] at hc; exact absurd hc (by simp)
  · exact hm h2

theorem greek_name_clean (s : String) (h : s ∈ greekDays ∨ s = "") :
    countCh ';' s = 0 ∧ countCh '\n' s = 0 := by
  rcases h with h | h
  · simp only [greekDays, List.mem_cons, List.not_mem_nil, or_false] at h
    rcases h with h | h | h | h | h | h | h <;> rw [h] <;> exact ⟨by decide, by decide⟩
  · rw [h]; exact ⟨by decide, by decide⟩

theorem greek_day_name_mem (d nm : String) (h : get_greek_day_name d = some nm) :
    nm ∈ greekDays ∨ nm = "" := by
  unfold get_greek_day_name at h
  rcases hp : parseDate d with _ | dt
  · rw [hp] at h; exact absurd h (by simp)
  · rw [hp] at h
    simp only [Option.map_some'] at h
    have h2 := Option.some.inj h
    by_cases hw : Date.weekday dt < greekDays.length
    · left
      rw [← h2, List.getD_eq_getElem _ _ hw]
      exact List.getElem_mem _
    · right
      rw [← h2, List.getD_eq_default]
      omega

theorem mapOpt_mem {α β : Type} (f : α → Option β) (l : List α) :
    ∀ res, mapOpt f l = some res → ∀ y ∈ res, ∃ x ∈ l, f x = some y := by
  induction l with
  | nil =>
    intro res h y hy
    simp [mapOpt] at h
    subst h
    exact absurd hy (List.not_mem_nil y)
  | cons a t ih =>
    intro res h y hy
    rcases hfa : f a with _ | b <;> rcases hmt : mapOpt f t with _ | bs <;>
      simp [mapOpt, hfa, hmt] at h
    rw [← h] at hy
    rcases List.mem_cons.1 hy with hy | hy
    · exact ⟨a, by simp, by rw [hfa, hy]⟩
    · obtain ⟨x, hx, hfx⟩ := ih bs hmt y hy
      exact ⟨x, by simp [hx], hfx⟩

theorem mapOpt_dom {α β : Type} (f : α → Option β) (l : List α) :
    ∀ res, mapOpt f l = some res → ∀ x ∈ l, (f x).isSome = true := by
  induction l with
  | nil => intro res h x hx; exact absurd hx (List.not_mem_nil x)
  | cons a t ih =>
    intro res h x hx
    rcases hfa : f a with _ | b <;> rcases hmt : mapOpt f t with _ | bs <;>
      simp [mapOpt, hfa, hmt] at h
    rcases List.mem_cons.1 hx with hx | hx
    · rw [hx, hfa]; rfl
    · exact ih bs hmt x hx

theorem mapOpt_length {α β : Type} (f : α → Option β) (l : List α) :
    ∀ res, mapOpt f l = some res → res.length = l.length := by
  induction l with
  | nil => intro res h; simp [mapOpt] at h; subst h; rfl
  | cons a t ih =>
    intro res h
    rcases hfa : f a with _ | b <;> rcases hmt : mapOpt f t with _ | bs <;>
      simp [mapOpt, hfa, hmt] at h
    rw [← h]
    simp [ih bs hmt]

/-- Zero sum of per-string counts. -/
theorem sum_countCh_zero (c : Char) (l : List String) (h : ∀ x ∈ l, countCh c x = 0) :
    (l.map (countCh c)).sum = 0 := by
  apply List.sum_eq_zero
  intro x hx
  obtain ⟨y, hy, hxy⟩ := List.mem_map.1 hx
  rw [← hxy]
  exact h y hy

/-- C10 (amended): the text renderer writes names and descriptions
verbatim with no quoting or escaping, so under the precondition that no
issuer name or item description contains the separator or a newline AND
that the date axis is nonempty (always the case for a matrix built from
at least one record), every physical line of the text encoding is one
logical row with exactly 2 + |DateAxis| fields (field count = semicolon
count + 1) and no newline inside; and an issuer name containing the
separator produces a data line with more than 2 + |DateAxis| fields. -/
theorem csv_line_fields (agg : AggDict) (dates : List String) (lines : List String)
    (hc : generate_csv agg dates = some lines)
    (hne : dates ≠ [])
    (hclean : ∀ it ∈ agg, countCh ';' it.1.1 = 0 ∧ countCh '\n' it.1.1 = 0 ∧
      countCh ';' it.1.2 = 0 ∧ countCh '\n' it.1.2 = 0) :
    (∀ l ∈ lines, countCh ';' l + 1 = 2 + dates.length ∧ countCh '\n' l = 0) ∧
    csvDataLines [(("A;B", "I"), [])] ["2024-01-05"] = ["A;B;I;"] ∧
    2 + (["2024-01-05"] : List String).length < countCh ';' "A;B;I;" + 1 := by
  refine ⟨?_, by decide, by decide⟩
  obtain ⟨names, hnm, hl⟩ := Option.map_eq_some'.1 hc
  have hdlen : dates.length ≠ 0 := fun h0 => hne (List.length_eq_zero.1 h0)
  have hdatesc : ∀ d ∈ dates, countCh ';' d = 0 ∧ countCh '\n' d = 0 := by
    intro d hd
    have hds := mapOpt_dom get_greek_day_name dates names hnm d hd
    rcases hp : parseDate d with _ | dt
    · rw [get_greek_day_name, hp] at hds
      exact absurd hds (by simp)
    · exact ⟨parseDate_count d dt hp ';' (by decide) (by decide),
             parseDate_count d dt hp '\n' (by decide) (by decide)⟩
  have hnamesc : ∀ nm ∈ names, countCh ';' nm = 0 ∧ countCh '\n' nm = 0 := by
    intro nm hnm2
    obtain ⟨d, _, hfd⟩ := mapOpt_mem get_greek_day_name dates names hnm nm hnm2
    exact greek_name_clean nm (greek_day_name_mem d nm hfd)
  have hnlen : names.length = dates.length := mapOpt_length _ _ names hnm
  have hnne : names ≠ [] := by
    intro h0
    rw [h0] at hnlen
    exact hdlen hnlen.symm
  intro l hl2
  rw [← hl] at hl2
  rcases List.mem_cons.1 hl2 with h1 | hl2
  · subst h1
    constructor
    · rw [countCh_append, countCh_semiJoin_semi dates hne,
        sum_countCh_zero ';' dates (fun x hx => (hdatesc x hx).1)]
      have h2 : countCh ';' ";;" = 2 := by decide
      rw [h2]
      omega
    · rw [countCh_append, countCh_semiJoin_other '\n' (by decide) dates,
        sum_countCh_zero '\n' dates (fun x hx => (hdatesc x hx).2)]
      have h2 : countCh '\n' ";;" = 0 := by decide
      rw [h2]
  · rcases List.mem_cons.1 hl2 with h1 | hl2
    · subst h1
      constructor
      · rw [countCh_append, countCh_semiJoin_semi names hnne,
          sum_countCh_zero ';' names (fun x hx => (hnamesc x hx).1)]
        have h2 : countCh ';' ";;" = 2 := by decide
        rw [h2, hnlen]
        omega
      · rw [countCh_append, countCh_semiJoin_other '\n' (by decide) names,
          sum_countCh_zero '\n' names (fun x hx => (hnamesc x hx).2)]
        have h2 : countCh '\n' ";;" = 0 := by decide
        rw [h2]
    · obtain ⟨it, hit, hline⟩ := List.mem_map.1 hl2
      have hitm : it ∈ agg := (List.perm_insertionSort itemLE agg).mem_iff.1 hit
      obtain ⟨c1, c2, c3, c4⟩ := hclean it hitm
      have hcells1 : ((dates.map (csvCell it.2)).map (countCh ';')).sum = 0 := by
        apply sum_countCh_zero
        intro x hx
        obtain ⟨d2, _, hxd⟩ := List.mem_map.1 hx
        rw [← hxd]
        exact countCh_csvCell ';' (by decide) (by decide) it.2 d2
      have hcells2 : ((dates.map (csvCell it.2)).map (countCh '\n')).sum = 0 := by
        apply sum_countCh_zero
        intro x hx
        obtain ⟨d2, _, hxd⟩ := List.mem_map.1 hx
        rw [← hxd]
        exact countCh_csvCell '\n' (by decide) (by decide) it.2 d2
      constructor
      · rw [← hline, countCh_semiJoin_semi _ (by simp)]
        simp only [List.map_cons, List.sum_cons, List.length_cons, List.length_map]
        rw [c1, c3, hcells1]
        omega
      · rw [← hline, countCh_semiJoin_other '\n' (by decide)]
        simp only [List.map_cons, List.sum_cons]
        rw [c2, c4, hcells2]

/-- Witness for the amended C10: on the concrete matrix every line of the
text file has exactly 2 + |DateAxis| = 4 fields and no embedded
newline. -/
theorem csv_line_fields_witness :
    countCh ';' "ACME;Widget;5;" + 1 = 2 + datesW.length ∧
    countCh '\n' "ACME;Widget;5;" = 0 := by
  exact (csv_line_fields aggW datesW csvW (by decide) (by decide) (by decide)).1
    "ACME;Widget;5;" (by decide)

/-- Counterexample to C10 as stated: with an empty date axis (and the
stated precondition holding vacuously) the header lines of the text
encoding have three fields, not 2 + |DateAxis| = 2. -/
theorem csv_line_fields_cx :
    generate_csv [] [] = some [";;", ";;"] ∧
    countCh ';' ";;" + 1 = 3 ∧
    2 + ([] : List String).length ≠ 3 := by
  decide

end GD
